import Mathlib

/-!
Verification of the phase advance computation engine of GetLLM
(GetLLM/algorithms/phase.py), shallowly embedded in Lean 4.

Angles are modelled as real numbers (units of one betatron period), the
small sample correction table as exact rationals, measurement files as
(possibly partial) maps from BPM indices to angles.
-/

/-- Lookup table of t_value_correction, transcribed from the source dict.
Keys 2..20; a missing key would be a KeyError in the source, the guard in
t_value_correction makes the default unreachable. -/
def correction_dict : ℕ → ℚ
  | 2 => 1.8394733927562799
  | 3 => 1.3224035682262103
  | 4 => 1.1978046912864673
  | 5 => 1.1424650980932523
  | 6 => 1.1112993008590089
  | 7 => 1.0913332519214189
  | 8 => 1.0774580800762166
  | 9 => 1.0672589736833817
  | 10 => 1.0594474783177483
  | 11 => 1.053273802733051
  | 12 => 1.0482721313740653
  | 13 => 1.0441378866779087
  | 14 => 1.0406635564353071
  | 15 => 1.0377028976401199
  | 16 => 1.0351498875115406
  | 17 => 1.0329257912610941
  | 18 => 1.0309709166064416
  | 19 => 1.029239186837585
  | 20 => 1.0276944692596461
  | _ => 0

/-- Small sample correction factor, from the source: the table value when
1 < num and num <= 20, and 1 otherwise. -/
def t_value_correction (num : ℕ) : ℚ :=
  if 1 < num ∧ num ≤ 20 then correction_dict num else 1

/-- Vectorized form of t_value_correction: np.vectorize with otypes equal
to int casts every output to an integer (truncation toward zero; all table
values are at least 1, so this is the floor). -/
def vec_t_value_correction (num : ℕ) : ℤ :=
  ⌊t_value_correction num⌋

/-- Inverse variance weight of one measurement file in the tune average,
with the zero RMS guard from the source (rms of 0 is replaced by 1000). -/
def tune_weight (rms : ℚ) : ℚ :=
  1 / (if rms = 0 then 1000 else rms) ^ 2

/-- The per plane tune aggregation of calculate_phase: a weighted average
of the per file tunes with inverse variance weights. -/
def aggregate_tune (files : List (ℚ × ℚ)) : ℚ :=
  (files.map (fun p => p.1 * tune_weight p.2)).sum /
    (files.map (fun p => tune_weight p.2)).sum

/-- The constant TWOPI of the source constants module. -/
noncomputable def TWOPI : ℝ := 2 * Real.pi

/-- The Python modulo operation on reals, for a positive modulus: the
representative of x in [0, norm). -/
noncomputable def pymod (x norm : ℝ) : ℝ := x - norm * ⌊x / norm⌋

/-- np.mean of a list of reals. -/
noncomputable def listMean (l : List ℝ) : ℝ := l.sum / l.length

/-- calc_phase_mean from the source: wrap into [0, norm), also form the
re-centered candidate in [-norm/2, norm/2), average both candidates and
return the one with the smaller sum of absolute deviations, the second one
re-wrapped into [0, norm). -/
noncomputable def calc_phase_mean (phase : List ℝ) (norm : ℝ) : ℝ :=
  let phase0 := phase.map (fun x => pymod x norm)
  let phase1 := phase0.map (fun x => pymod (x + 0.5 * norm) norm - 0.5 * norm)
  let phase0ave := listMean phase0
  let phase1ave := listMean phase1
  let mod_phase0std := (phase0.map (fun x => |x - phase0ave|)).sum
  let mod_phase1std := (phase1.map (fun x => |x - phase1ave|)).sum
  if mod_phase0std < mod_phase1std then phase0ave else pymod phase1ave norm

/-- calc_phase_std from the source: the smaller of the two candidates sums
of squared deviations, divided by n - 1, square rooted and multiplied by
the small sample correction factor at n - 1; 0 when n is 1 or less. -/
noncomputable def calc_phase_std (phase : List ℝ) (norm : ℝ) : ℝ :=
  let phase0 := phase.map (fun x => pymod x norm)
  let phase1 := phase0.map (fun x => pymod (x + 0.5 * norm) norm - 0.5 * norm)
  let phase0ave := listMean phase0
  let phase1ave := listMean phase1
  let phase0std_sq := (phase0.map (fun x => (x - phase0ave) ^ 2)).sum
  let phase1std_sq := (phase1.map (fun x => (x - phase1ave) ^ 2)).sum
  let min_phase_std := min phase0std_sq phase1std_sq
  if 1 < phase.length then
    Real.sqrt (min_phase_std / ((phase.length : ℝ) - 1)) *
      ((t_value_correction (phase.length - 1) : ℚ) : ℝ)
  else 0

/-- The pandas panel built by the two phase advance builders: the model
phase advance matrix, the measured one, its error and the per pair count
of contributing files, each indexed by a pair of BPM positions. -/
structure PhasePanel (m : ℕ) where
  MODEL : Fin m → Fin m → ℝ
  MEAS : Fin m → Fin m → ℝ
  ERRMEAS : Fin m → Fin m → ℝ
  NFILES : Fin m → Fin m → ℝ

/-- np.arctan2: the angle of the point (x, y), in (-pi, pi]. -/
noncomputable def arctan2 (y x : ℝ) : ℝ := Complex.arg (↑x + ↑y * Complex.I)

/-- Per file angle adjustment of the intersection builder: the beam
direction sign is applied to every BPM angle and the aggregated tune is
added to the entries strictly after the last BPM of the turn. -/
noncomputable def adj_phases {m : ℕ} (bd tune_q : ℝ) (k_lastbpm : ℕ) (f : Fin m → ℝ) :
    Fin m → ℝ :=
  fun i => if k_lastbpm + 1 ≤ (i : ℕ) then bd * f i + tune_q * bd else bd * f i

/-- The running sum of sin(TWOPI * diff) over the measurement files in the
intersection builder, accumulated file by file as in the source loop. -/
noncomputable def sin_sum {m : ℕ} (bd tune_q : ℝ) (k_lastbpm : ℕ)
    (Files : List (Fin m → ℝ)) : Fin m → Fin m → ℝ :=
  Files.foldl
    (fun acc f => fun i j => acc i j +
      Real.sin (TWOPI * (adj_phases bd tune_q k_lastbpm f j -
        adj_phases bd tune_q k_lastbpm f i)))
    (fun _ _ => 0)

/-- The running sum of cos(TWOPI * diff) over the measurement files in the
intersection builder, accumulated file by file as in the source loop. -/
noncomputable def cos_sum {m : ℕ} (bd tune_q : ℝ) (k_lastbpm : ℕ)
    (Files : List (Fin m → ℝ)) : Fin m → Fin m → ℝ :=
  Files.foldl
    (fun acc f => fun i j => acc i j +
      Real.cos (TWOPI * (adj_phases bd tune_q k_lastbpm f j -
        adj_phases bd tune_q k_lastbpm f i)))
    (fun _ _ => 0)

/-- The intersection builder: vector averaging of the per file angle
difference matrices. MEAS is the angle of the mean unit vector wrapped
into [0, 1), ERRMEAS is derived from the resultant length R, divided by
sqrt of the file count exactly when the optimistic flag is set, NFILES is
uniformly the file count. -/
noncomputable def get_phases_intersection {m : ℕ} (optimistic : Bool)
    (bd tune_q : ℝ) (k_lastbpm : ℕ) (model : Fin m → ℝ)
    (Files : List (Fin m → ℝ)) : PhasePanel m :=
  let N : ℝ := Files.length
  let S := sin_sum bd tune_q k_lastbpm Files
  let C := cos_sum bd tune_q k_lastbpm Files
  { MODEL := fun i j => Int.fract (model j - model i)
    MEAS := fun i j => Int.fract (arctan2 (S i j / N) (C i j / N) / TWOPI)
    ERRMEAS := fun i j =>
      if optimistic then
        Real.sqrt (-2 * Real.log (Real.sqrt (S i j * S i j + C i j * C i j) / N)) /
          Real.sqrt N
      else Real.sqrt (-2 * Real.log (Real.sqrt (S i j * S i j + C i j * C i j) / N))
    NFILES := fun _ _ => N }

/-- The per entry wrap of the union builder: np.where keeps a positive
difference and adds 1 to a non positive one. -/
noncomputable def wrap_pos (x : ℝ) : ℝ := if 0 < x then x else x + 1

/-- One entry of the per file wrapped difference matrix in the union
builder; none when either BPM is absent from the file. -/
noncomputable def union_file_entry {m : ℕ} (bd : ℝ) (f : Fin m → Option ℝ) (i j : Fin m) :
    Option ℝ :=
  match f i, f j with
  | some a, some b => some (wrap_pos (bd * b - bd * a))
  | _, _ => none

/-- The stack of per file wrapped differences for one BPM pair, restricted
to the files where both BPMs are present: the non NaN entries of the
stacked panel along the file axis. -/
noncomputable def union_samples {m : ℕ} (bd : ℝ) (Files : List (Fin m → Option ℝ))
    (i j : Fin m) : List ℝ :=
  Files.filterMap (fun f => union_file_entry bd f i j)

/-- np.nanstd over the file axis: the population standard deviation of the
non NaN samples (divisor n, not n - 1). -/
noncomputable def nanstd (l : List ℝ) : ℝ :=
  Real.sqrt ((l.map (fun x => (x - listMean l) ^ 2)).sum / l.length)

/-- The union builder: per pair arithmetic mean (mod 1) and population
standard deviation of the per file wrapped differences over the files
where both BPMs are present, the deviation multiplied by the vectorized
correction factor at the pair count and divided by sqrt of the count
exactly when the optimistic flag is set. -/
noncomputable def get_phases_union {m : ℕ} (optimistic : Bool) (bd : ℝ)
    (model : Fin m → ℝ) (Files : List (Fin m → Option ℝ)) : PhasePanel m :=
  { MODEL := fun i j => Int.fract (model j - model i)
    MEAS := fun i j => Int.fract (listMean (union_samples bd Files i j))
    ERRMEAS := fun i j =>
      let s := union_samples bd Files i j
      if optimistic then
        nanstd s / Real.sqrt (s.length : ℝ) *
          ((vec_t_value_correction s.length : ℤ) : ℝ)
      else nanstd s * ((vec_t_value_correction s.length : ℤ) : ℝ)
    NFILES := fun i j => ((union_samples bd Files i j).length : ℝ) }

/-- Total view of a partial measurement file, used when the intersection
builder is given files assumed to cover every BPM. -/
noncomputable def totalize {m : ℕ} (f : Fin m → Option ℝ) : Fin m → ℝ :=
  fun i => (f i).getD 0

/-- get_phases from the source: choose the last BPM of the turn, dispatch
on the union flag to one of the two builders and return the panel together
with the muave value, which the source sets to 0 and never updates. -/
noncomputable def get_phases {m : ℕ} (use_union optimistic lhc_phase_1 : Bool)
    (k_first : ℕ) (bd tune_q : ℝ) (model : Fin m → ℝ)
    (Files : List (Fin m → Option ℝ)) : PhasePanel m × ℝ :=
  let muave : ℝ := 0
  let k_lastbpm := if lhc_phase_1 then k_first else m
  (if use_union then get_phases_union optimistic bd model Files
   else get_phases_intersection optimistic bd tune_q k_lastbpm model
     (Files.map totalize),
   muave)

/-- The vectorized correction factor is 1 at every argument: each table
value lies in the interval [1, 2), so the integer cast truncates it to 1. -/
lemma vec_t_eq_one (n : ℕ) : vec_t_value_correction n = 1 := by
  unfold vec_t_value_correction t_value_correction
  by_cases h : 1 < n ∧ n ≤ 20
  · rw [if_pos h]
    obtain ⟨h1, h2⟩ := h
    interval_cases n <;>
      · simp only [correction_dict]
        rw [Int.floor_eq_iff]
        norm_num
  · rw [if_neg h]
    norm_num

/-- A left fold that only accumulates pointwise additions into a matrix is
the matrix of sums. -/
lemma foldl_add_fun {α : Type} {m : ℕ} (g : α → Fin m → Fin m → ℝ) :
    ∀ (F : List α) (init : Fin m → Fin m → ℝ) (i j : Fin m),
      (F.foldl (fun acc f => fun i j => acc i j + g f i j) init) i j =
        init i j + (F.map (fun f => g f i j)).sum := by
  intro F
  induction F with
  | nil => intro init i j; simp
  | cons f F ih =>
    intro init i j
    simp only [List.foldl_cons, List.map_cons, List.sum_cons, ih]
    ring

/-- Closed form of the accumulated sine sums of the intersection builder. -/
lemma sin_sum_eq {m : ℕ} (bd tune_q : ℝ) (k : ℕ) (F : List (Fin m → ℝ))
    (i j : Fin m) :
    sin_sum bd tune_q k F i j =
      (F.map (fun f => Real.sin (TWOPI * (adj_phases bd tune_q k f j -
        adj_phases bd tune_q k f i)))).sum := by
  unfold sin_sum
  rw [foldl_add_fun (fun f i j => Real.sin (TWOPI * (adj_phases bd tune_q k f j -
    adj_phases bd tune_q k f i))), zero_add]

/-- Closed form of the accumulated cosine sums of the intersection builder. -/
lemma cos_sum_eq {m : ℕ} (bd tune_q : ℝ) (k : ℕ) (F : List (Fin m → ℝ))
    (i j : Fin m) :
    cos_sum bd tune_q k F i j =
      (F.map (fun f => Real.cos (TWOPI * (adj_phases bd tune_q k f j -
        adj_phases bd tune_q k f i)))).sum := by
  unfold cos_sum
  rw [foldl_add_fun (fun f i j => Real.cos (TWOPI * (adj_phases bd tune_q k f j -
    adj_phases bd tune_q k f i))), zero_add]

/-- Summing the negations of a list of reals gives the negated sum. -/
lemma list_sum_neg {α : Type} (l : List α) (f : α → ℝ) :
    (l.map (fun x => -(f x))).sum = -((l.map f).sum) := by
  induction l with
  | nil => simp
  | cons x l ih =>
    simp only [List.map_cons, List.sum_cons, ih]
    ring

/-- If two reals add up to an integer then the sum of their fractional
parts has fractional part 0. -/
lemma fract_add_fract_int {u v : ℝ} (k : ℤ) (h : u + v = k) :
    Int.fract (Int.fract u + Int.fract v) = 0 := by
  have he : Int.fract u + Int.fract v = ((k - ⌊u⌋ - ⌊v⌋ : ℤ) : ℝ) := by
    unfold Int.fract
    push_cast
    linarith
  rw [he, Int.fract_intCast]

/-- The angles of a complex number and of its conjugate add up to an
integer multiple of TWOPI. -/
lemma arg_add_arg_conj (z : ℂ) :
    ∃ k : ℤ, Complex.arg z + Complex.arg ((starRingEnd ℂ) z) = k * TWOPI := by
  by_cases h : Complex.arg z = Real.pi
  · refine ⟨1, ?_⟩
    rw [Complex.arg_conj, if_pos h, h]
    unfold TWOPI
    push_cast
    ring
  · refine ⟨0, ?_⟩
    rw [Complex.arg_conj, if_neg h]
    push_cast
    ring

/-- Conjugation negates the imaginary part of a point given by real
coordinates. -/
lemma conj_ofReal_add_I (x y : ℝ) :
    (starRingEnd ℂ) (↑x + ↑y * Complex.I) = ↑x + ↑(-y) * Complex.I := by
  simp only [map_add, map_mul, Complex.conj_ofReal, Complex.conj_I]
  push_cast
  ring

/-- The wrapped angle of the unit vector at angle theta is the wrap of
theta itself, in units of TWOPI. -/
lemma fract_arctan2_sin_cos (θ : ℝ) :
    Int.fract (arctan2 (Real.sin θ) (Real.cos θ) / TWOPI) =
      Int.fract (θ / TWOPI) := by
  have h2 : (2 : ℝ) * Real.pi ≠ 0 := Real.two_pi_pos.ne'
  have h := Complex.arg_cos_add_sin_mul_I_sub θ
  have harg : arctan2 (Real.sin θ) (Real.cos θ) =
      θ + 2 * Real.pi * ((⌊(Real.pi - θ) / (2 * Real.pi)⌋ : ℤ) : ℝ) := by
    unfold arctan2
    rw [Complex.ofReal_cos, Complex.ofReal_sin]
    linarith
  rw [harg]
  unfold TWOPI
  rw [add_div, mul_div_cancel_left₀ _ h2]
  exact Int.fract_add_int _ _

/-- Wrapping by wrap_pos does not change the fractional part. -/
lemma fract_wrap_pos (x : ℝ) : Int.fract (wrap_pos x) = Int.fract x := by
  unfold wrap_pos
  split
  · rfl
  · exact Int.fract_add_one x

/-- For a nonzero difference the two opposite wraps add up to exactly 1. -/
lemma wrap_pos_add_neg {x : ℝ} (hx : x ≠ 0) : wrap_pos x + wrap_pos (-x) = 1 := by
  unfold wrap_pos
  rcases lt_or_gt_of_ne hx with h | h
  · rw [if_neg (not_lt.mpr h.le), if_pos (by linarith)]
    ring
  · rw [if_pos h, if_neg (by linarith)]
    ring

/-- np.mean of a single sample is the sample. -/
lemma listMean_singleton (x : ℝ) : listMean [x] = x := by
  simp [listMean]

/-- np.nanstd of a single sample is 0. -/
lemma nanstd_singleton (x : ℝ) : nanstd [x] = 0 := by
  simp [nanstd, listMean]

/-- The per pair sample stacks of a BPM pair and of the swapped pair have
the same length, and when no contributing file has a zero difference for
the pair their sums add up to exactly the sample count. -/
lemma union_samples_swap {m : ℕ} (bd : ℝ) (i j : Fin m) :
    ∀ G : List (Fin m → Option ℝ),
      (∀ g ∈ G, ∀ a b, g i = some a → g j = some b → bd * b - bd * a ≠ 0) →
      (union_samples bd G j i).length = (union_samples bd G i j).length ∧
      (union_samples bd G i j).sum + (union_samples bd G j i).sum =
        ((union_samples bd G i j).length : ℝ) := by
  intro G
  induction G with
  | nil => intro _; simp [union_samples]
  | cons g G ih =>
    intro H
    have Hg := H g (List.mem_cons_self g G)
    have HG : ∀ g ∈ G, ∀ a b, g i = some a → g j = some b →
        bd * b - bd * a ≠ 0 :=
      fun g hg => H g (List.mem_cons_of_mem _ hg)
    obtain ⟨ih1, ih2⟩ := ih HG
    unfold union_samples at ih1 ih2 ⊢
    rw [List.filterMap_cons, List.filterMap_cons]
    cases hgi : g i with
    | none =>
      have e1 : union_file_entry bd g i j = none := by
        unfold union_file_entry
        rw [hgi]
      have e2 : union_file_entry bd g j i = none := by
        unfold union_file_entry
        rw [hgi]
        cases g j <;> rfl
      rw [e1, e2]
      exact ⟨ih1, ih2⟩
    | some a =>
      cases hgj : g j with
      | none =>
        have e1 : union_file_entry bd g i j = none := by
          unfold union_file_entry
          rw [hgi, hgj]
        have e2 : union_file_entry bd g j i = none := by
          unfold union_file_entry
          rw [hgj]
        rw [e1, e2]
        exact ⟨ih1, ih2⟩
      | some b =>
        have e1 : union_file_entry bd g i j =
            some (wrap_pos (bd * b - bd * a)) := by
          unfold union_file_entry
          rw [hgi, hgj]
        have e2 : union_file_entry bd g j i =
            some (wrap_pos (-(bd * b - bd * a))) := by
          unfold union_file_entry
          rw [hgi, hgj]
          norm_num
        rw [e1, e2]
        refine ⟨by simp [ih1], ?_⟩
        simp only [List.sum_cons, List.length_cons]
        have hw := wrap_pos_add_neg (Hg a b hgi hgj)
        push_cast
        linarith

/-- Claim C1, counterexample: the spec reference values are shifted by one
against the code table. The factor at 1 is 1, not 1.8394733927562799, and
the factor at 19 is 1.029239186837585, not 1.0276944692596461. -/
theorem claim_C1_counterexample :
    t_value_correction 1 = 1 ∧ ((1 : ℚ) ≠ 1.8394733927562799) ∧
    t_value_correction 19 = 1.029239186837585 ∧
    ((1.029239186837585 : ℚ) ≠ 1.0276944692596461) := by
  refine ⟨?_, by norm_num, ?_, by norm_num⟩
  · norm_num [t_value_correction]
  · norm_num [t_value_correction, correction_dict]

/-- Claim C1, amended: the literal reference values hold one argument
later, at 2 and 20; the factor is 1 at 0, 1 and 25, the table values on
2..20 decrease monotonically from about 1.84 toward about 1.03 and stay
strictly above 1, and the factor is exactly 1 for arguments 1 or below
and above 20. -/
theorem claim_C1_amended (n : ℕ) :
    t_value_correction 0 = 1 ∧ t_value_correction 1 = 1 ∧
    t_value_correction 2 = 1.8394733927562799 ∧
    t_value_correction 20 = 1.0276944692596461 ∧
    t_value_correction 25 = 1 ∧
    (n ≤ 1 ∨ 20 < n → t_value_correction n = 1) ∧
    (2 ≤ n → n ≤ 20 →
      1 < t_value_correction n ∧
      t_value_correction n ≤ 1.8394733927562799 ∧
      (n < 20 → t_value_correction (n + 1) < t_value_correction n)) := by
  refine ⟨by norm_num [t_value_correction],
    by norm_num [t_value_correction],
    by norm_num [t_value_correction, correction_dict],
    by norm_num [t_value_correction, correction_dict],
    by norm_num [t_value_correction],
    ?_, ?_⟩
  · intro h
    unfold t_value_correction
    rw [if_neg (by omega)]
  · intro h1 h2
    interval_cases n <;>
      exact ⟨by norm_num [t_value_correction, correction_dict],
        by norm_num [t_value_correction, correction_dict],
        fun hlt => by norm_num [t_value_correction, correction_dict]⟩

/-- Witness for claim C1 at the concrete argument 5: the factor lies
strictly above 1 and strictly decreases toward the factor at 6. -/
theorem claim_C1_witness :
    ((2 ≤ 5 ∧ (5 : ℕ) ≤ 20 ∧ (5 : ℕ) < 20) ∧
      1 < t_value_correction 5 ∧
      t_value_correction 6 < t_value_correction 5) := by
  have h := (claim_C1_amended 5).2.2.2.2.2.2 (by norm_num) (by norm_num)
  exact ⟨⟨by norm_num, by norm_num, by norm_num⟩, h.1, h.2.2 (by norm_num)⟩

/-- Claim C5, counterexample: on the two files of the spec example the
aggregated tune is exactly 0.284, which is neither the spec literal 0.2824
nor the arithmetic mean 0.29. -/
theorem claim_C5_counterexample :
    aggregate_tune [(0.28, 0.001), (0.30, 0.002)] = 71 / 250 ∧
    ((71 : ℚ) / 250 ≠ 0.2824) ∧ ((71 : ℚ) / 250 ≠ 0.29) := by
  refine ⟨?_, by norm_num, by norm_num⟩
  norm_num [aggregate_tune, tune_weight]

/-- Claim C5, amended: the aggregated tune is the inverse variance
weighted mean with the zero RMS guard replacing a zero RMS by 1000, and on
the spec example it equals exactly 0.284 = 71/250 (the spec literal 0.2824
is off), not the arithmetic mean 0.29. -/
theorem claim_C5_amended (files : List (ℚ × ℚ)) :
    aggregate_tune files =
      (files.map (fun p => p.1 * (1 / (if p.2 = 0 then 1000 else p.2) ^ 2))).sum /
        (files.map (fun p => 1 / (if p.2 = 0 then 1000 else p.2) ^ 2)).sum ∧
    tune_weight 0 = 1 / 1000 ^ 2 ∧
    aggregate_tune [(0.28, 0.001), (0.30, 0.002)] = 71 / 250 ∧
    ((71 : ℚ) / 250 ≠ 0.29) := by
  refine ⟨rfl, by norm_num [tune_weight], ?_, by norm_num⟩
  norm_num [aggregate_tune, tune_weight]

/-- Claim C7, counterexample: a pair of BPMs with equal measured angles
has raw difference 0, which is not negative, yet the per file entry is
0 + 1 = 1, and 1 does not lie in the interval [0, 1). -/
theorem claim_C7_counterexample :
    union_file_entry (1 : ℝ) (fun _ : Fin 2 => some (1 / 4 : ℝ)) 0 1 =
      some 1 ∧ ¬ ((1 : ℝ) < 1) := by
  constructor
  · unfold union_file_entry
    norm_num [wrap_pos]
  · norm_num

/-- Claim C7, amended: the per file stacked entry is the raw difference
with 1 added exactly when the raw difference is non positive (not only
when it is negative), and for raw differences in (-1, 1) every entry lies
in the interval (0, 1], not [0, 1). -/
theorem claim_C7_amended {m : ℕ} (bd : ℝ) (f : Fin m → Option ℝ) (i j : Fin m)
    (a b : ℝ) (ha : f i = some a) (hb : f j = some b) :
    union_file_entry bd f i j = some (wrap_pos (bd * b - bd * a)) ∧
    (0 < bd * b - bd * a → wrap_pos (bd * b - bd * a) = bd * b - bd * a) ∧
    (bd * b - bd * a ≤ 0 → wrap_pos (bd * b - bd * a) = bd * b - bd * a + 1) ∧
    (-1 < bd * b - bd * a → bd * b - bd * a < 1 →
      0 < wrap_pos (bd * b - bd * a) ∧ wrap_pos (bd * b - bd * a) ≤ 1) := by
  refine ⟨?_, ?_, ?_, ?_⟩
  · unfold union_file_entry
    rw [ha, hb]
  · intro h
    unfold wrap_pos
    rw [if_pos h]
  · intro h
    unfold wrap_pos
    rw [if_neg (not_lt.mpr h)]
  · intro h1 h2
    unfold wrap_pos
    split
    · next h => exact ⟨h, h2.le⟩
    · next h =>
      constructor <;> linarith [not_lt.mp h]

/-- Witness for claim C7 at a concrete file where both BPMs read 1/4: the
entry is the wrap of the zero difference, the wrap adds 1, and the value
lies in (0, 1]. -/
theorem claim_C7_witness :
    union_file_entry (1 : ℝ) (fun _ : Fin 2 => some (1 / 4 : ℝ)) 0 1 =
      some (wrap_pos (1 * (1 / 4) - 1 * (1 / 4))) ∧
    wrap_pos (1 * (1 / 4 : ℝ) - 1 * (1 / 4)) =
      1 * (1 / 4 : ℝ) - 1 * (1 / 4) + 1 ∧
    (0 < wrap_pos (1 * (1 / 4 : ℝ) - 1 * (1 / 4)) ∧
      wrap_pos (1 * (1 / 4 : ℝ) - 1 * (1 / 4)) ≤ 1) := by
  have h := claim_C7_amended (1 : ℝ) (fun _ : Fin 2 => some (1 / 4 : ℝ)) 0 1
    (1 / 4) (1 / 4) rfl rfl
  exact ⟨h.1, h.2.2.1 (by norm_num), h.2.2.2 (by norm_num) (by norm_num)⟩

/-- Claim C9: the vectorized correction factor applied by the union
builder is declared with integer output type, so it truncates every table
value to exactly 1; hence the union ERRMEAS is never inflated by the small
sample correction and equals the bare standard deviation (divided by the
square root of the count exactly in optimistic mode). -/
theorem claim_C9 {m : ℕ} (n : ℕ) (optimistic : Bool) (bd : ℝ)
    (model : Fin m → ℝ) (Files : List (Fin m → Option ℝ)) (i j : Fin m) :
    vec_t_value_correction n = 1 ∧
    (get_phases_union optimistic bd model Files).ERRMEAS i j =
      (if optimistic then
        nanstd (union_samples bd Files i j) /
          Real.sqrt ((union_samples bd Files i j).length : ℝ)
      else nanstd (union_samples bd Files i j)) := by
  refine ⟨vec_t_eq_one n, ?_⟩
  unfold get_phases_union
  simp [vec_t_eq_one]

/-- Claim C10: the second component returned by get_phases, the per plane
muave value the orchestrator stores into the tune data, is always 0. -/
theorem claim_C10 {m : ℕ} (use_union optimistic lhc_phase_1 : Bool)
    (k_first : ℕ) (bd tune_q : ℝ) (model : Fin m → ℝ)
    (Files : List (Fin m → Option ℝ)) :
    (get_phases use_union optimistic lhc_phase_1 k_first bd tune_q model
      Files).2 = 0 :=
  rfl

/-- Claim C3: in intersection mode MEAS is atan2 of the file averaged sine
and cosine sums of the adjusted differences, divided by TWOPI and wrapped
into [0, 1); ERRMEAS comes from the resultant length R as sqrt(-2 ln R),
divided additionally by sqrt(N) exactly when the optimistic flag is on;
NFILES is uniformly the file count. -/
theorem claim_C3 {m : ℕ} (optimistic : Bool) (bd tune_q : ℝ) (k : ℕ)
    (model : Fin m → ℝ) (Files : List (Fin m → ℝ)) (i j : Fin m) :
    (get_phases_intersection optimistic bd tune_q k model Files).MEAS i j =
      Int.fract (arctan2
        ((Files.map (fun f => Real.sin (TWOPI * (adj_phases bd tune_q k f j -
          adj_phases bd tune_q k f i)))).sum / (Files.length : ℝ))
        ((Files.map (fun f => Real.cos (TWOPI * (adj_phases bd tune_q k f j -
          adj_phases bd tune_q k f i)))).sum / (Files.length : ℝ)) / TWOPI) ∧
    (get_phases_intersection optimistic bd tune_q k model Files).ERRMEAS i j =
      (if optimistic then
        Real.sqrt (-2 * Real.log (Real.sqrt
          (((Files.map (fun f => Real.sin (TWOPI * (adj_phases bd tune_q k f j -
            adj_phases bd tune_q k f i)))).sum) ^ 2 +
           ((Files.map (fun f => Real.cos (TWOPI * (adj_phases bd tune_q k f j -
            adj_phases bd tune_q k f i)))).sum) ^ 2) / (Files.length : ℝ))) /
          Real.sqrt (Files.length : ℝ)
      else
        Real.sqrt (-2 * Real.log (Real.sqrt
          (((Files.map (fun f => Real.sin (TWOPI * (adj_phases bd tune_q k f j -
            adj_phases bd tune_q k f i)))).sum) ^ 2 +
           ((Files.map (fun f => Real.cos (TWOPI * (adj_phases bd tune_q k f j -
            adj_phases bd tune_q k f i)))).sum) ^ 2) / (Files.length : ℝ)))) ∧
    (get_phases_intersection optimistic bd tune_q k model Files).NFILES i j =
      (Files.length : ℝ) := by
  refine ⟨?_, ?_, rfl⟩
  · simp only [get_phases_intersection, sin_sum_eq, cos_sum_eq]
  · simp only [get_phases_intersection, sin_sum_eq, cos_sum_eq, ← pow_two]

/-- With a single measurement file the intersection MEAS entry is the
wrap of the adjusted difference itself. -/
lemma intersection_single_MEAS {m : ℕ} (optimistic : Bool) (bd tune_q : ℝ)
    (k : ℕ) (model : Fin m → ℝ) (f : Fin m → ℝ) (i j : Fin m) :
    (get_phases_intersection optimistic bd tune_q k model [f]).MEAS i j =
      Int.fract (adj_phases bd tune_q k f j - adj_phases bd tune_q k f i) := by
  have hTP : TWOPI ≠ 0 := by
    unfold TWOPI
    exact Real.two_pi_pos.ne'
  simp only [get_phases_intersection, sin_sum_eq, cos_sum_eq, List.map_cons,
    List.map_nil, List.sum_cons, List.sum_nil, add_zero, zero_add,
    List.length_cons, List.length_nil, Nat.cast_one, div_one]
  rw [fract_arctan2_sin_cos, mul_div_cancel_left₀ _ hTP]

/-- With a single measurement file the resultant length is exactly 1, so
the intersection ERRMEAS entry is exactly 0. -/
lemma intersection_single_ERRMEAS {m : ℕ} (optimistic : Bool) (bd tune_q : ℝ)
    (k : ℕ) (model : Fin m → ℝ) (f : Fin m → ℝ) (i j : Fin m) :
    (get_phases_intersection optimistic bd tune_q k model [f]).ERRMEAS i j = 0 := by
  simp only [get_phases_intersection, sin_sum_eq, cos_sum_eq, List.map_cons,
    List.map_nil, List.sum_cons, List.sum_nil, add_zero, zero_add,
    List.length_cons, List.length_nil, Nat.cast_one, div_one]
  have hsc : Real.sin (TWOPI * (adj_phases bd tune_q k f j -
        adj_phases bd tune_q k f i)) *
      Real.sin (TWOPI * (adj_phases bd tune_q k f j -
        adj_phases bd tune_q k f i)) +
      Real.cos (TWOPI * (adj_phases bd tune_q k f j -
        adj_phases bd tune_q k f i)) *
      Real.cos (TWOPI * (adj_phases bd tune_q k f j -
        adj_phases bd tune_q k f i)) = 1 := by
    rw [← Real.sin_sq_add_cos_sq (TWOPI * (adj_phases bd tune_q k f j -
      adj_phases bd tune_q k f i))]
    ring
  rw [hsc, Real.sqrt_one, Real.log_one, mul_zero, Real.sqrt_zero, zero_div]
  split <;> rfl

/-- With a single file of full coverage the union samples stack of any
pair is the single wrapped difference. -/
lemma union_single_samples {m : ℕ} (bd : ℝ) (f : Fin m → ℝ) (i j : Fin m) :
    union_samples bd [fun t => some (f t)] i j =
      [wrap_pos (bd * f j - bd * f i)] :=
  rfl

/-- With a single file of full coverage the union MEAS entry is the wrap
of the raw difference and the union ERRMEAS entry is exactly 0. -/
lemma union_single_MEAS_ERR {m : ℕ} (optimistic : Bool) (bd : ℝ)
    (model : Fin m → ℝ) (f : Fin m → ℝ) (i j : Fin m) :
    (get_phases_union optimistic bd model [fun t => some (f t)]).MEAS i j =
      Int.fract (bd * f j - bd * f i) ∧
    (get_phases_union optimistic bd model [fun t => some (f t)]).ERRMEAS i j
      = 0 := by
  constructor
  · simp only [get_phases_union, union_single_samples, listMean_singleton]
    exact fract_wrap_pos _
  · simp only [get_phases_union, union_single_samples, nanstd_singleton]
    split <;> simp

/-- Claim C4, counterexample: with one file, tune 1/4 and the last BPM of
the turn at position 0, the pair (0, 1) spans the turn boundary: the
intersection builder adds the tune to the second angle and yields 1/2
while the union builder, which never applies the tune shift, yields 1/4. -/
theorem claim_C4_counterexample :
    (get_phases_intersection false 1 (1 / 4) 0 (fun _ : Fin 2 => 0)
      [![0, 1 / 4]]).MEAS 0 1 = 1 / 2 ∧
    (get_phases_union false 1 (fun _ : Fin 2 => 0)
      [fun t => some (![0, (1 / 4 : ℝ)] t)]).MEAS 0 1 = 1 / 4 ∧
    ((1 : ℝ) / 2 ≠ 1 / 4) := by
  refine ⟨?_, ?_, by norm_num⟩
  · rw [intersection_single_MEAS]
    have ha : adj_phases (1 : ℝ) (1 / 4) 0 ![0, (1 / 4 : ℝ)] 1 -
        adj_phases (1 : ℝ) (1 / 4) 0 ![0, (1 / 4 : ℝ)] 0 = 1 / 2 := by
      unfold adj_phases
      norm_num
    rw [ha]
    rw [Int.fract_eq_self.mpr (by norm_num)]
  · rw [(union_single_MEAS_ERR false 1 (fun _ : Fin 2 => 0)
      ![0, (1 / 4 : ℝ)] 0 1).1]
    have hb : (1 : ℝ) * ![0, (1 / 4 : ℝ)] 1 - 1 * ![0, (1 / 4 : ℝ)] 0 =
        1 / 4 := by
      norm_num
    rw [hb, Int.fract_eq_self.mpr (by norm_num)]

/-- Claim C4, amended: with exactly one measurement file both builders
produce an ERRMEAS of exactly 0 for every pair, and they produce the same
MEAS entry for every pair whose BPMs lie on the same side of the last BPM
of the turn; across that boundary only the intersection builder adds the
tune, so the entries can differ. -/
theorem claim_C4_amended {m : ℕ} (optimistic : Bool) (bd tune_q : ℝ) (k : ℕ)
    (model : Fin m → ℝ) (f : Fin m → ℝ) (i j : Fin m) :
    (get_phases_intersection optimistic bd tune_q k model [f]).ERRMEAS i j
      = 0 ∧
    (get_phases_union optimistic bd model [fun t => some (f t)]).ERRMEAS i j
      = 0 ∧
    ((k + 1 ≤ (i : ℕ) ↔ k + 1 ≤ (j : ℕ)) →
      (get_phases_intersection optimistic bd tune_q k model [f]).MEAS i j =
        (get_phases_union optimistic bd model [fun t => some (f t)]).MEAS i j) := by
  refine ⟨intersection_single_ERRMEAS optimistic bd tune_q k model f i j,
    (union_single_MEAS_ERR optimistic bd model f i j).2, ?_⟩
  intro hk
  rw [intersection_single_MEAS, (union_single_MEAS_ERR optimistic bd model f i j).1]
  have hd : adj_phases bd tune_q k f j - adj_phases bd tune_q k f i =
      bd * f j - bd * f i := by
    unfold adj_phases
    by_cases hi : k + 1 ≤ (i : ℕ)
    · rw [if_pos (hk.mp hi), if_pos hi]
      ring
    · rw [if_neg (fun hj => hi (hk.mpr hj)), if_neg hi]
  rw [hd]

/-- Witness for claim C4 at a concrete single file over two BPMs with the
turn boundary behind both BPMs, so the pair lies on one side. -/
theorem claim_C4_witness :
    (get_phases_intersection false 1 (1 / 4) 5 (fun _ : Fin 2 => 0)
      [![0, 1 / 4]]).ERRMEAS 0 1 = 0 ∧
    (get_phases_union false 1 (fun _ : Fin 2 => 0)
      [fun t => some (![0, (1 / 4 : ℝ)] t)]).ERRMEAS 0 1 = 0 ∧
    (get_phases_intersection false 1 (1 / 4) 5 (fun _ : Fin 2 => 0)
      [![0, 1 / 4]]).MEAS 0 1 =
      (get_phases_union false 1 (fun _ : Fin 2 => 0)
        [fun t => some (![0, (1 / 4 : ℝ)] t)]).MEAS 0 1 := by
  have h := claim_C4_amended false 1 (1 / 4) 5 (fun _ : Fin 2 => 0)
    ![0, (1 / 4 : ℝ)] 0 1
  exact ⟨h.1, h.2.1, h.2.2 (by simp)⟩

/-- Swapping the pair negates the accumulated sine sums. -/
lemma sin_sum_swap {m : ℕ} (bd tune_q : ℝ) (k : ℕ) (F : List (Fin m → ℝ))
    (i j : Fin m) :
    sin_sum bd tune_q k F j i = -(sin_sum bd tune_q k F i j) := by
  rw [sin_sum_eq, sin_sum_eq, ← list_sum_neg]
  have he : (fun f : Fin m → ℝ => Real.sin (TWOPI *
      (adj_phases bd tune_q k f i - adj_phases bd tune_q k f j))) =
      fun f : Fin m → ℝ => -Real.sin (TWOPI *
        (adj_phases bd tune_q k f j - adj_phases bd tune_q k f i)) := by
    funext f
    rw [← Real.sin_neg]
    congr 1
    ring
  rw [he]

/-- Swapping the pair leaves the accumulated cosine sums unchanged. -/
lemma cos_sum_swap {m : ℕ} (bd tune_q : ℝ) (k : ℕ) (F : List (Fin m → ℝ))
    (i j : Fin m) :
    cos_sum bd tune_q k F j i = cos_sum bd tune_q k F i j := by
  rw [cos_sum_eq, cos_sum_eq]
  have he : (fun f : Fin m → ℝ => Real.cos (TWOPI *
      (adj_phases bd tune_q k f i - adj_phases bd tune_q k f j))) =
      fun f : Fin m → ℝ => Real.cos (TWOPI *
        (adj_phases bd tune_q k f j - adj_phases bd tune_q k f i)) := by
    funext f
    rw [← Real.cos_neg]
    congr 1
    ring
  rw [he]

/-- Claim C6, counterexample: in union mode a file in which the two BPMs
read the same angle contributes a wrapped difference of exactly 1 in both
directions, so with a second regular file the two opposite MEAS entries
add up to 3/2, which is 1/2 away from 0 modulo 1. -/
theorem claim_C6_counterexample :
    (get_phases_union false 1 (fun _ : Fin 2 => 0)
      [![some (1 / 5), some (1 / 5)], ![some 0, some (3 / 10 : ℝ)]]).MEAS 0 1
      = 13 / 20 ∧
    (get_phases_union false 1 (fun _ : Fin 2 => 0)
      [![some (1 / 5), some (1 / 5)], ![some 0, some (3 / 10 : ℝ)]]).MEAS 1 0
      = 17 / 20 ∧
    Int.fract ((13 : ℝ) / 20 + 17 / 20) = 1 / 2 ∧ ((1 : ℝ) / 2 ≠ 0) := by
  refine ⟨?_, ?_, ?_, by norm_num⟩
  · simp only [get_phases_union]
    have hs : union_samples (1 : ℝ)
        [![some (1 / 5), some (1 / 5)], ![some 0, some (3 / 10 : ℝ)]] 0 1 =
        [wrap_pos (1 * (1 / 5) - 1 * (1 / 5)), wrap_pos (1 * (3 / 10) - 1 * 0)] :=
      rfl
    have hw1 : wrap_pos (1 * (1 / 5 : ℝ) - 1 * (1 / 5)) = 1 := by
      norm_num [wrap_pos]
    have hw2 : wrap_pos (1 * (3 / 10 : ℝ) - 1 * 0) = 3 / 10 := by
      norm_num [wrap_pos]
    rw [hs, hw1, hw2]
    have hm : listMean [(1 : ℝ), 3 / 10] = 13 / 20 := by
      norm_num [listMean]
    rw [hm, Int.fract_eq_self.mpr (by norm_num)]
  · simp only [get_phases_union]
    have hs : union_samples (1 : ℝ)
        [![some (1 / 5), some (1 / 5)], ![some 0, some (3 / 10 : ℝ)]] 1 0 =
        [wrap_pos (1 * (1 / 5) - 1 * (1 / 5)), wrap_pos (1 * 0 - 1 * (3 / 10))] :=
      rfl
    have hw1 : wrap_pos (1 * (1 / 5 : ℝ) - 1 * (1 / 5)) = 1 := by
      norm_num [wrap_pos]
    have hw2 : wrap_pos (1 * (0 : ℝ) - 1 * (3 / 10)) = 7 / 10 := by
      norm_num [wrap_pos]
    rw [hs, hw1, hw2]
    have hm : listMean [(1 : ℝ), 7 / 10] = 17 / 20 := by
      norm_num [listMean]
    rw [hm, Int.fract_eq_self.mpr (by norm_num)]
  · rw [show (13 : ℝ) / 20 + 17 / 20 = 1 / 2 + 1 by norm_num,
      Int.fract_add_one, Int.fract_eq_self.mpr (by norm_num)]

/-- Claim C6, amended: anti-symmetry of MEAS modulo 1 holds exactly and
unconditionally for the intersection builder; for the union builder it
holds for every pair such that no contributing file has a zero raw
difference for that pair (a zero difference wraps to 1 in both directions
and breaks the identity, as the counterexample shows). -/
theorem claim_C6_amended {m : ℕ} (optimistic : Bool) (bd tune_q : ℝ) (k : ℕ)
    (model : Fin m → ℝ) (F : List (Fin m → ℝ)) (G : List (Fin m → Option ℝ))
    (i j : Fin m) :
    Int.fract
      ((get_phases_intersection optimistic bd tune_q k model F).MEAS i j +
       (get_phases_intersection optimistic bd tune_q k model F).MEAS j i) = 0 ∧
    ((∀ g ∈ G, ∀ a b, g i = some a → g j = some b → bd * b - bd * a ≠ 0) →
      Int.fract
        ((get_phases_union optimistic bd model G).MEAS i j +
         (get_phases_union optimistic bd model G).MEAS j i) = 0) := by
  have hTP : TWOPI ≠ 0 := by
    unfold TWOPI
    exact Real.two_pi_pos.ne'
  constructor
  · simp only [get_phases_intersection]
    rw [sin_sum_swap bd tune_q k F i j, cos_sum_swap bd tune_q k F i j,
      neg_div]
    unfold arctan2
    obtain ⟨kk, hk⟩ := arg_add_arg_conj
      (↑(cos_sum bd tune_q k F i j / (F.length : ℝ)) +
        ↑(sin_sum bd tune_q k F i j / (F.length : ℝ)) * Complex.I)
    rw [conj_ofReal_add_I] at hk
    apply fract_add_fract_int kk
    rw [div_add_div_same, hk, mul_div_assoc, div_self hTP, mul_one]
  · intro H
    obtain ⟨hlen, hsum⟩ := union_samples_swap bd i j G H
    simp only [get_phases_union]
    by_cases hn : (union_samples bd G i j).length = 0
    · have hnil : union_samples bd G i j = [] := List.length_eq_zero.mp hn
      have hnil2 : union_samples bd G j i = [] :=
        List.length_eq_zero.mp (by rw [hlen]; exact hn)
      apply fract_add_fract_int 0
      rw [hnil, hnil2]
      simp [listMean]
    · apply fract_add_fract_int 1
      have hne : ((union_samples bd G i j).length : ℝ) ≠ 0 :=
        Nat.cast_ne_zero.mpr hn
      unfold listMean
      rw [hlen, div_add_div_same, hsum, div_self hne]
      norm_num

/-- Witness for claim C6 at a concrete union input with one file over two
BPMs whose angles differ, so no contributing difference is zero. -/
theorem claim_C6_witness :
    Int.fract
      ((get_phases_union false 1 (fun _ : Fin 2 => 0)
        [![some 0, some (1 / 4 : ℝ)]]).MEAS 0 1 +
       (get_phases_union false 1 (fun _ : Fin 2 => 0)
        [![some 0, some (1 / 4 : ℝ)]]).MEAS 1 0) = 0 := by
  apply (claim_C6_amended (m := 2) false 1 0 0 (fun _ => 0) []
    [![some 0, some (1 / 4 : ℝ)]] 0 1).2
  intro g hg a b hga hgb
  have hgeq : g = ![some 0, some (1 / 4 : ℝ)] := by simpa using hg
  subst hgeq
  rw [Matrix.cons_val_zero] at hga
  rw [Matrix.cons_val_one, Matrix.head_cons] at hgb
  injection hga with ha
  injection hgb with hb
  subst ha
  subst hb
  norm_num

/-- Absolute value of a real written as a branch, to let numerals through. -/
lemma abs_val (x : ℝ) : |x| = if 0 ≤ x then x else -x := by
  split
  · next h => exact abs_of_nonneg h
  · next h => exact abs_of_neg (not_le.mp h)

/-- The Python modulo with modulus 1 is the fractional part. -/
lemma pymod_one (x : ℝ) : pymod x 1 = Int.fract x := by
  unfold pymod Int.fract
  norm_num

/-- The dual candidate circular mean of the samples 9/10 and 1/10 picks
the re-centered candidate and returns 0. -/
lemma calc_mean_example : calc_phase_mean [(9 : ℝ) / 10, 1 / 10] 1 = 0 := by
  have f1 : pymod ((9 : ℝ) / 10) 1 = 9 / 10 := by
    rw [pymod_one]
    exact Int.fract_eq_self.mpr ⟨by norm_num, by norm_num⟩
  have f2 : pymod ((1 : ℝ) / 10) 1 = 1 / 10 := by
    rw [pymod_one]
    exact Int.fract_eq_self.mpr ⟨by norm_num, by norm_num⟩
  have f3 : pymod ((9 : ℝ) / 10 + 0.5 * 1) 1 = 2 / 5 := by
    rw [pymod_one, show (9 : ℝ) / 10 + 0.5 * 1 = 2 / 5 + 1 by norm_num,
      Int.fract_add_one]
    exact Int.fract_eq_self.mpr ⟨by norm_num, by norm_num⟩
  have f4 : pymod ((1 : ℝ) / 10 + 0.5 * 1) 1 = 3 / 5 := by
    rw [pymod_one, show (1 : ℝ) / 10 + 0.5 * 1 = 3 / 5 by norm_num]
    exact Int.fract_eq_self.mpr ⟨by norm_num, by norm_num⟩
  unfold calc_phase_mean
  simp only [List.map_cons, List.map_nil, f1, f2, f3, f4]
  have hm0 : listMean [(9 : ℝ) / 10, 1 / 10] = 1 / 2 := by
    norm_num [listMean]
  have hm1 : listMean [(2 : ℝ) / 5 - 0.5 * 1, 3 / 5 - 0.5 * 1] = 0 := by
    norm_num [listMean]
  rw [hm0, hm1]
  simp only [abs_val]
  norm_num [pymod_one]

/-- np.nanstd of the samples 9/10 and 1/10 is exactly 2/5. -/
lemma nanstd_example : nanstd [(9 : ℝ) / 10, 1 / 10] = 2 / 5 := by
  unfold nanstd
  have hm : listMean [(9 : ℝ) / 10, 1 / 10] = 1 / 2 := by
    norm_num [listMean]
  simp only [List.map_cons, List.map_nil, hm, List.sum_cons, List.sum_nil,
    List.length_cons, List.length_nil]
  rw [show (((9 : ℝ) / 10 - 1 / 2) ^ 2 + (((1 : ℝ) / 10 - 1 / 2) ^ 2 + 0)) /
      ((0 + 1 + 1 : ℕ) : ℝ) = (2 / 5) ^ 2 by push_cast; norm_num,
    Real.sqrt_sq (by norm_num)]

/-- The dual candidate circular standard deviation of the samples 9/10 and
1/10 is sqrt(1/50), which is strictly below 2/5. -/
lemma calc_std_example : calc_phase_std [(9 : ℝ) / 10, 1 / 10] 1 < 2 / 5 := by
  have f1 : pymod ((9 : ℝ) / 10) 1 = 9 / 10 := by
    rw [pymod_one]
    exact Int.fract_eq_self.mpr ⟨by norm_num, by norm_num⟩
  have f2 : pymod ((1 : ℝ) / 10) 1 = 1 / 10 := by
    rw [pymod_one]
    exact Int.fract_eq_self.mpr ⟨by norm_num, by norm_num⟩
  have f3 : pymod ((9 : ℝ) / 10 + 0.5 * 1) 1 = 2 / 5 := by
    rw [pymod_one, show (9 : ℝ) / 10 + 0.5 * 1 = 2 / 5 + 1 by norm_num,
      Int.fract_add_one]
    exact Int.fract_eq_self.mpr ⟨by norm_num, by norm_num⟩
  have f4 : pymod ((1 : ℝ) / 10 + 0.5 * 1) 1 = 3 / 5 := by
    rw [pymod_one, show (1 : ℝ) / 10 + 0.5 * 1 = 3 / 5 by norm_num]
    exact Int.fract_eq_self.mpr ⟨by norm_num, by norm_num⟩
  unfold calc_phase_std
  simp only [List.map_cons, List.map_nil, f1, f2, f3, f4]
  have hm0 : listMean [(9 : ℝ) / 10, 1 / 10] = 1 / 2 := by
    norm_num [listMean]
  have hm1 : listMean [(2 : ℝ) / 5 - 0.5 * 1, 3 / 5 - 0.5 * 1] = 0 := by
    norm_num [listMean]
  rw [hm0, hm1]
  simp only [List.length_cons, List.length_nil, List.sum_cons, List.sum_nil]
  rw [if_pos (by norm_num)]
  have ht : ((t_value_correction ((0 + 1 + 1) - 1) : ℚ) : ℝ) = 1 := by
    norm_num [t_value_correction]
  rw [ht, mul_one]
  have hmin : min (((9 : ℝ) / 10 - 1 / 2) ^ 2 + (((1 : ℝ) / 10 - 1 / 2) ^ 2 + 0))
      (((2 : ℝ) / 5 - 0.5 * 1 - 0) ^ 2 + (((3 : ℝ) / 5 - 0.5 * 1 - 0) ^ 2 + 0)) =
      1 / 50 := by
    rw [min_eq_right (by norm_num)]
    norm_num
  rw [hmin]
  have hlt : Real.sqrt ((1 : ℝ) / 50 / (((0 + 1 + 1 : ℕ) : ℝ) - 1)) <
      Real.sqrt ((2 / 5) ^ 2) := by
    apply Real.sqrt_lt_sqrt (by positivity)
    push_cast
    norm_num
  rwa [Real.sqrt_sq (by norm_num)] at hlt

/-- Claim C2, counterexample: on two files whose wrapped differences for
the pair (0, 1) are 9/10 and 1/10, the union builder returns MEAS = 1/2,
the plain arithmetic mean, while the dual candidate circular mean of the
same samples is 0; and ERRMEAS = 2/5, the population standard deviation,
while the dual candidate deviation with the correction factor is
sqrt(1/50) < 2/5. So union MEAS/ERRMEAS are not the circular estimators
claimed. -/
theorem claim_C2_counterexample :
    union_samples (1 : ℝ)
      [![some 0, some (9 / 10 : ℝ)], ![some 0, some (1 / 10 : ℝ)]] 0 1 =
      [(9 : ℝ) / 10, 1 / 10] ∧
    (get_phases_union false 1 (fun _ : Fin 2 => 0)
      [![some 0, some (9 / 10 : ℝ)], ![some 0, some (1 / 10 : ℝ)]]).MEAS 0 1
      = 1 / 2 ∧
    calc_phase_mean [(9 : ℝ) / 10, 1 / 10] 1 = 0 ∧ ((1 : ℝ) / 2 ≠ 0) ∧
    (get_phases_union false 1 (fun _ : Fin 2 => 0)
      [![some 0, some (9 / 10 : ℝ)], ![some 0, some (1 / 10 : ℝ)]]).ERRMEAS 0 1
      = 2 / 5 ∧
    calc_phase_std [(9 : ℝ) / 10, 1 / 10] 1 < 2 / 5 := by
  have hw1 : wrap_pos (1 * (9 / 10 : ℝ) - 1 * 0) = 9 / 10 := by
    norm_num [wrap_pos]
  have hw2 : wrap_pos (1 * (1 / 10 : ℝ) - 1 * 0) = 1 / 10 := by
    norm_num [wrap_pos]
  have hs : union_samples (1 : ℝ)
      [![some 0, some (9 / 10 : ℝ)], ![some 0, some (1 / 10 : ℝ)]] 0 1 =
      [(9 : ℝ) / 10, 1 / 10] := by
    show [wrap_pos (1 * (9 / 10 : ℝ) - 1 * 0),
      wrap_pos (1 * (1 / 10 : ℝ) - 1 * 0)] = [(9 : ℝ) / 10, 1 / 10]
    rw [hw1, hw2]
  refine ⟨hs, ?_, calc_mean_example, by norm_num, ?_, calc_std_example⟩
  · simp only [get_phases_union, hs]
    have hm : listMean [(9 : ℝ) / 10, 1 / 10] = 1 / 2 := by
      norm_num [listMean]
    rw [hm, Int.fract_eq_self.mpr (by norm_num)]
  · simp only [get_phases_union, hs, nanstd_example]
    simp [vec_t_eq_one]

/-- Claim C2, amended: in union mode, for a pair with n at least 1
contributing files, MEAS is the plain arithmetic mean of the per file
wrapped differences over exactly those n files, wrapped into [0, 1);
ERRMEAS is the population standard deviation of those samples (divisor n,
so 0 when n = 1), divided by sqrt(n) exactly in optimistic mode; the
vectorized correction factor is applied at n (not n - 1) and its integer
truncation makes it exactly 1; NFILES is the per pair count n. -/
theorem claim_C2_amended {m : ℕ} (optimistic : Bool) (bd : ℝ)
    (model : Fin m → ℝ) (G : List (Fin m → Option ℝ)) (i j : Fin m)
    (h : 1 ≤ (union_samples bd G i j).length) :
    (get_phases_union optimistic bd model G).MEAS i j =
      Int.fract ((union_samples bd G i j).sum /
        ((union_samples bd G i j).length : ℝ)) ∧
    (get_phases_union optimistic bd model G).ERRMEAS i j =
      (if optimistic then
        Real.sqrt (((union_samples bd G i j).map (fun x =>
          (x - (union_samples bd G i j).sum /
            ((union_samples bd G i j).length : ℝ)) ^ 2)).sum /
          ((union_samples bd G i j).length : ℝ)) /
          Real.sqrt ((union_samples bd G i j).length : ℝ)
      else
        Real.sqrt (((union_samples bd G i j).map (fun x =>
          (x - (union_samples bd G i j).sum /
            ((union_samples bd G i j).length : ℝ)) ^ 2)).sum /
          ((union_samples bd G i j).length : ℝ))) ∧
    ((union_samples bd G i j).length = 1 →
      (get_phases_union optimistic bd model G).ERRMEAS i j = 0) ∧
    (get_phases_union optimistic bd model G).NFILES i j =
      ((union_samples bd G i j).length : ℝ) := by
  refine ⟨rfl, ?_, ?_, rfl⟩
  · simp only [get_phases_union, nanstd, listMean, vec_t_eq_one,
      Int.cast_one, mul_one]
  · intro h1
    obtain ⟨x, hx⟩ := List.length_eq_one.mp h1
    simp only [get_phases_union, hx, nanstd_singleton, vec_t_eq_one,
      Int.cast_one, mul_one]
    split <;> simp

/-- Witness for claim C2 at a concrete single file input where the pair
has exactly one contributing file. -/
theorem claim_C2_witness :
    1 ≤ (union_samples (1 : ℝ) [![some 0, some (1 / 4 : ℝ)]]
      (0 : Fin 2) 1).length ∧
    (get_phases_union false 1 (fun _ : Fin 2 => 0)
      [![some 0, some (1 / 4 : ℝ)]]).MEAS 0 1 =
      Int.fract ((union_samples (1 : ℝ) [![some 0, some (1 / 4 : ℝ)]]
        (0 : Fin 2) 1).sum /
        ((union_samples (1 : ℝ) [![some 0, some (1 / 4 : ℝ)]]
          (0 : Fin 2) 1).length : ℝ)) ∧
    (get_phases_union false 1 (fun _ : Fin 2 => 0)
      [![some 0, some (1 / 4 : ℝ)]]).ERRMEAS 0 1 = 0 := by
  have hlen : (union_samples (1 : ℝ) [![some 0, some (1 / 4 : ℝ)]]
      (0 : Fin 2) 1).length = 1 := rfl
  have h := claim_C2_amended false 1 (fun _ : Fin 2 => 0)
    [![some 0, some (1 / 4 : ℝ)]] 0 1 (by rw [hlen])
  exact ⟨by rw [hlen], h.1, h.2.2.1 hlen⟩
